import Mathlib

/-!
Verification of the AMS orchestration core (Agent Registry, Communication Hub,
Supervisor) against its specification.  The Python source is embedded shallowly:
dictionaries become association lists with Python dict semantics (first-insertion
position, last-write value), `None`/empty-container truthiness is modelled
explicitly, fallible operations return `Except`/`Option`, and the unbounded
recursion of `add_with_dependencies` is modelled with a fuel parameter
(`none` = the Python call does not terminate).  Wall-clock data (timestamps)
and freshly generated UUIDs are passed in as explicit arguments.
-/

set_option maxHeartbeats 1000000

namespace AMS

/-- Values that can occur in an agent/capability configuration dict.
Only the shapes the orchestration code inspects are distinguished. -/
inductive ConfigVal where
  | str (s : String)
  | int (n : Int)
  | list (l : List String)
deriving DecidableEq, Repr

/-- `ams.core.registry.models.AgentFramework`. -/
inductive AgentFramework where
  | autogen
  | crewai
deriving DecidableEq, Repr

/-- `ams.core.registry.models.AgentStatus`. -/
inductive AgentStatus where
  | ready
  | busy
  | offline
  | error
deriving DecidableEq, Repr

/-- `ams.core.registry.models.AgentCapability`. -/
structure AgentCapability where
  name : String
  description : String
  parameters : Option (List (String × ConfigVal)) := none
deriving DecidableEq, Repr

/-- `ams.core.registry.models.AgentMetadata` (timestamps omitted: wall clock,
never read by the orchestration logic under verification). -/
structure AgentMetadata where
  id : String
  name : String
  description : String
  system_prompt : String
  framework : AgentFramework
  capabilities : Option (List AgentCapability) := none
  status : AgentStatus := .offline
  config : Option (List (String × ConfigVal)) := none
deriving DecidableEq, Repr

/-- Does `pat` occur as a contiguous sublist of `l`? -/
def listContainsSub (pat : List Char) : List Char → Bool
  | [] => pat.isEmpty
  | c :: rest => pat.isPrefixOf (c :: rest) || listContainsSub pat rest

/-- `pat in s` on Python strings (substring test). -/
def strContains (s pat : String) : Bool :=
  listContainsSub pat.toList s.toList

/-- ASCII lowercasing, Python `str.lower` as used on the role keywords. -/
def pyStrToLower (s : String) : String :=
  String.mk (s.toList.map Char.toLower)

/-- Accumulate a decimal digit string; `none` on any non-digit. -/
def digitsVal : List Char → Nat → Option Nat
  | [], acc => some acc
  | c :: rest, acc =>
    if c.isDigit then digitsVal rest (acc * 10 + (c.toNat - 48)) else none

/-- Python `int(str)`: surrounding whitespace stripped, optional sign,
non-empty digit string; `none` models `ValueError`. -/
def pyStrToInt (s : String) : Option Int :=
  let cs := ((s.toList.dropWhile Char.isWhitespace).reverse.dropWhile
    Char.isWhitespace).reverse
  match cs with
  | [] => none
  | c :: rest =>
    if c = '-' then
      if rest.isEmpty then none
      else (digitsVal rest 0).map (fun n => -(n : Int))
    else if c = '+' then
      if rest.isEmpty then none
      else (digitsVal rest 0).map (fun n => (n : Int))
    else (digitsVal cs 0).map (fun n => (n : Int))

/-- Python `int(v)`: ints pass through, strings are parsed, anything else
raises (`none`). -/
def pyInt : ConfigVal → Option Int
  | .int n => some n
  | .str s => pyStrToInt s
  | .list _ => none

/-- Python dict lookup on an association list (keys are unique, so the first
match is the value). -/
def pyLookup {α : Type} : List (String × α) → String → Option α
  | [], _ => none
  | e :: rest, k => if e.1 = k then some e.2 else pyLookup rest k

/-- `cfg and key in cfg` followed by `cfg[key]`: `None` and the empty dict are
falsy, so they yield `none`. -/
def configLookup (cfg : Option (List (String × ConfigVal))) (k : String) :
    Option ConfigVal :=
  match cfg with
  | none => none
  | some l => if l.isEmpty then none else pyLookup l k

/-- The `role_priorities` table of
`SupervisorManager.determine_agent_execution_order`. -/
def rolePriorities : List (String × Int) :=
  [("research", 1), ("strategist", 2), ("writer", 3),
   ("content", 3), ("evaluator", 4), ("reviewer", 4)]

/-- One iteration of the capability loop refining an agent's priority
(the `elif` chain over `capability.name` / `capability.parameters`). -/
def capPriorityStep (p : Int) (cap : AgentCapability) : Int :=
  let cn := pyStrToLower cap.name
  if strContains cn "research" ∧ 1 < p then 1
  else if strContains cn "strategy" ∧ 2 < p then 2
  else if strContains cn "content" ∧ 3 < p then 3
  else if strContains cn "evaluate" ∧ 4 < p then 4
  else
    match configLookup cap.parameters "execution_priority" with
    | some v =>
      match pyInt v with
      | some n => min p n
      | none => p
    | none => p

/-- Role-keyword scan over name+description followed by the capability
refinement loop (the non-explicit-priority path of the priority computation). -/
def roleScanPriority (agent : AgentMetadata) : Int :=
  let text := pyStrToLower agent.name ++ " " ++ pyStrToLower agent.description
  let p := rolePriorities.foldl
    (fun p rp => if strContains text rp.1 then min p rp.2 else p) 5
  match agent.capabilities with
  | some caps => if caps.isEmpty then p else caps.foldl capPriorityStep p
  | none => p

/-- The priority assigned to one agent by
`determine_agent_execution_order`: explicit parseable
`config["execution_priority"]` wins, otherwise the role/capability scan. -/
def computeAgentPriority (agent : AgentMetadata) : Int :=
  match configLookup agent.config "execution_priority" with
  | some v =>
    match pyInt v with
    | some n => n
    | none => roleScanPriority agent
  | none => roleScanPriority agent

/-- Python dict value lookup in `agent_map = {agent.id: agent for agent in
agents}`: the last agent with the given id (later comprehension iterations
overwrite earlier values). -/
def agentMapGet (agents : List AgentMetadata) (aid : String) :
    Option AgentMetadata :=
  (agents.filter (fun a => decide (a.id = aid))).getLast?

/-- The `dependencies` entry contributed by a single agent's config:
a list value is filtered to ids present in `agent_map`; a string value is
recorded only when it is itself in `agent_map`; other shapes add no entry. -/
def declaredDeps (agents : List AgentMetadata) (a : AgentMetadata) :
    Option (List String) :=
  match configLookup a.config "depends_on" with
  | some (.list l) => some (l.filter (fun d => agents.any (fun b => decide (b.id = d))))
  | some (.str s) => if agents.any (fun b => decide (b.id = s)) then some [s] else none
  | some (.int _) => none
  | none => none

/-- `dependencies[aid]` after the first pass: the entry of the last agent with
id `aid` that contributed one (dict writes overwrite). -/
def depsGet (agents : List AgentMetadata) (aid : String) :
    Option (List String) :=
  ((agents.filter (fun a => decide (a.id = aid))).filterMap (declaredDeps agents)).getLast?

/-- `if dependencies:` — the dict is non-empty iff some agent contributed
an entry. -/
def hasDeps (agents : List AgentMetadata) : Bool :=
  agents.any (fun a => (declaredDeps agents a).isSome)

/-- The mutable state of the dependency walk: `processed` ids and the
`agent_execution_order` list (always appended together). -/
structure ExecState where
  processed : List String
  order : List AgentMetadata
deriving DecidableEq, Repr

/-- Sequencing of recursive `add_with_dependencies` calls over a dependency
list, aborting when a call runs out of fuel. -/
def foldDeps (f : String → ExecState → Option ExecState) :
    List String → ExecState → Option ExecState
  | [], st => some st
  | d :: ds, st =>
    match f d st with
    | none => none
    | some st1 => foldDeps f ds st1

/-- `add_with_dependencies` with a fuel bound on recursion depth.  On inputs
where the Python recursion terminates its depth is at most the number of
distinct agent ids plus one, so `agents.length + 1` fuel reproduces every
terminating run; `none` models non-termination (cyclic `depends_on`). -/
def addWithDependencies (agents : List AgentMetadata) :
    Nat → String → ExecState → Option ExecState
  | 0, _, _ => none
  | Nat.succ fuel, aid, st =>
    if aid ∈ st.processed then some st
    else
      match foldDeps (addWithDependencies agents fuel)
          ((depsGet agents aid).getD []) st with
      | none => none
      | some st1 =>
        if aid ∈ st1.processed then some st1
        else
          match agentMapGet agents aid with
          | some a => some ⟨st1.processed ++ [aid], st1.order ++ [a]⟩
          | none => some st1

/-- The loop `for agent in sorted_agents: add_with_dependencies(agent.id)`. -/
def execLoop (agents : List AgentMetadata) (fuel : Nat) :
    List AgentMetadata → ExecState → Option ExecState
  | [], st => some st
  | a :: rest, st =>
    match addWithDependencies agents fuel a.id st with
    | none => none
    | some st1 => execLoop agents fuel rest st1

/-- The safety-net loop appending any sorted agent whose id was never
processed. -/
def backstop : List AgentMetadata → ExecState → ExecState
  | [], st => st
  | a :: rest, st =>
    if a.id ∈ st.processed then backstop rest st
    else backstop rest ⟨st.processed ++ [a.id], st.order ++ [a]⟩

/-- The priority-sorted agent list: `prioritized_agents.sort(key=...)` on the
`(priority, agent)` tuples.  Python list sort is a stable sort by the first
tuple component; it is modelled by the (stable) insertion sort, which yields
the identical list. -/
def sortedByPriority (agents : List AgentMetadata) : List AgentMetadata :=
  ((agents.map (fun a => (computeAgentPriority a, a))).insertionSort
    (fun x y => x.1 ≤ y.1)).map (fun x => x.2)

/-- `SupervisorManager.determine_agent_execution_order`.  `none` models the
unbounded recursion of the Python implementation on cyclic dependency
configurations. -/
def determineAgentExecutionOrder (agents : List AgentMetadata) :
    Option (List AgentMetadata) :=
  let order? : Option (List AgentMetadata) :=
    if hasDeps agents then
      match execLoop agents (agents.length + 1) (sortedByPriority agents)
          ⟨[], []⟩ with
      | none => none
      | some st => some (backstop (sortedByPriority agents) st).order
    else some (sortedByPriority agents)
  match order? with
  | none => none
  | some l => some (if l.isEmpty then agents else l)

/-- The comparison induced on agents by the stable sort. -/
def agentLe (a b : AgentMetadata) : Prop :=
  computeAgentPriority a ≤ computeAgentPriority b

instance : DecidableRel agentLe := fun a b =>
  inferInstanceAs (Decidable (computeAgentPriority a ≤ computeAgentPriority b))

/-- `agent.config` declares a dependency on the id `did` (single id or in a
list), as read by the first pass of `determine_agent_execution_order`. -/
def declaresDepOn (a : AgentMetadata) (did : String) : Prop :=
  match configLookup a.config "depends_on" with
  | some (.str s) => s = did
  | some (.list ds) => did ∈ ds
  | _ => False

/-- Dependency-soundness of an emission order: every agent in the list is
preceded by all of its (id-resolved) declared dependencies. -/
def GoodOrder (agents : List AgentMetadata) (l : List AgentMetadata) : Prop :=
  ∀ j : Fin l.length, ∀ d ∈ (depsGet agents (l.get j).id).getD [],
    ∃ i : Fin l.length, i.val < j.val ∧ (l.get i).id = d

/-- The invariant maintained by the dependency walk: `processed` mirrors the
emitted ids, the emitted list is dependency-sound, draws from the input agents
and repeats no id. -/
def ExecInv (agents : List AgentMetadata) (st : ExecState) : Prop :=
  st.processed = st.order.map (fun a => a.id) ∧
  GoodOrder agents st.order ∧
  (∀ a ∈ st.order, a ∈ agents) ∧
  st.processed.Nodup

/-! ### Task analysis fallback (`SupervisorManager.analyze_task`, except branch) -/

/-- The analysis dict returned by the keyword fallback of `analyze_task`. -/
structure TaskAnalysis where
  task : String
  keywords : List String
  required_capabilities : List String
  reasoning : String
deriving DecidableEq, Repr

/-- The keyword-based fallback executed when the LLM call raises
(`analyze_task`, `except` branch). -/
def analyzeTaskFallback (task : String) : TaskAnalysis :=
  let keywords :=
    (["code", "programming", "math", "writing", "research", "data"]).filter
      (fun k => strContains (pyStrToLower task) k)
  let rc0 : List String := []
  let rc1 := if keywords.any (fun k => k == "code" || k == "programming")
    then rc0 ++ ["code_execution"] else rc0
  let rc2 := if "math" ∈ keywords then rc1 ++ ["calculation"] else rc1
  let rc3 := if keywords.any (fun k => k == "writing" || k == "research")
    then rc2 ++ ["text_generation"] else rc2
  let rc4 := if "data" ∈ keywords then rc3 ++ ["data_analysis"] else rc3
  let required := if rc4.isEmpty then ["text_generation"] else rc4
  { task := task, keywords := keywords, required_capabilities := required,
    reasoning := "Fallback keyword-based analysis due to LLM error" }

/-! ### Registry lookup and agent selection -/

/-- `InMemoryAgentRegistry.find_agents_by_capability`: only `READY` agents with
a non-empty capability list containing an exact name match. -/
def findAgentsByCapability (registry : List AgentMetadata) (capName : String) :
    List AgentMetadata :=
  registry.filter (fun a =>
    a.status == .ready &&
    (match a.capabilities with
     | none => false
     | some caps => !caps.isEmpty && caps.any (fun c => c.name == capName)))

/-- Python `dict` deduplication `{agent.id: agent for agent in l}.values()`:
keys in first-occurrence order, each mapped to the last agent carrying it. -/
def pyDedupById (l : List AgentMetadata) : List AgentMetadata :=
  let keys := l.foldl (fun ks a => if a.id ∈ ks then ks else ks ++ [a.id]) []
  keys.filterMap (fun k => (l.filter (fun a => decide (a.id = k))).getLast?)

/-- `SupervisorManager.select_agents`: per-capability registry queries,
concatenated and deduplicated by id.  There is no fallback path. -/
def selectAgents (registry : List AgentMetadata)
    (requiredCapabilities : List String) : List AgentMetadata :=
  let selected := requiredCapabilities.foldl
    (fun acc cap => acc ++ findAgentsByCapability registry cap) []
  pyDedupById selected

/-! ### Communication hub: messages, sessions, hub operations -/

/-- Python `ValueError(msg)` as surfaced by the hub and supervisor. -/
inductive PyError where
  | valueError (msg : String)
deriving DecidableEq, Repr

/-- `ams.core.communication.chat_context.ChatMessage` (timestamp omitted:
wall clock, never read by the logic under verification; the freshly generated
`message_id` is passed in by callers). -/
structure ChatMessage where
  content : String
  sender_id : String
  sender_name : String
  metadata : List (String × String)
  message_id : String
  sender_role : String
  sender_framework : Option String
deriving DecidableEq, Repr

/-- `ams.core.communication.chat_context.ChatSession` (timestamps omitted). -/
structure ChatSession where
  session_id : String
  metadata : List (String × List String)
  task : String
  messages : List ChatMessage
  is_active : Bool
deriving DecidableEq, Repr

/-- The hub's `sessions` dict. -/
abbrev Hub := List (String × ChatSession)

/-- Python `d[k] = v` on a dict rendered as an association list: an existing
key keeps its position and gets the new value, a new key is appended. -/
def dictSet {α : Type} (m : List (String × α)) (k : String) (v : α) :
    List (String × α) :=
  if m.any (fun e => decide (e.1 = k)) then
    m.map (fun e => if e.1 = k then (k, v) else e)
  else m ++ [(k, v)]

/-- The `sender_role` / `sender_framework` derivation in
`CommunicationHub.send_message` (`metadata and "type" in metadata` guards the
whole `elif`, so the framework is only read when a `type` key exists and the
sender is not `"system"`). -/
def computeSenderRoleFw (sender_id : String)
    (metadata : Option (List (String × String))) : String × Option String :=
  if sender_id == "system" then ("system", none)
  else
    match metadata with
    | none => ("agent", none)
    | some m =>
      if m.isEmpty then ("agent", none)
      else
        match pyLookup m "type" with
        | none => ("agent", none)
        | some t =>
          (if t == "system" then "system" else "agent", pyLookup m "framework")

/-- The `ChatMessage` constructed by `send_message` (metadata copy updated with
`sender_role` and, when truthy, `sender_framework`). -/
def builtMessage (content sender_id sender_name : String)
    (metadata : Option (List (String × String))) (message_id : String) :
    ChatMessage :=
  let rf := computeSenderRoleFw sender_id metadata
  let mm0 := match metadata with | some m => m | none => []
  let mm1 := dictSet mm0 "sender_role" rf.1
  let mm2 := match rf.2 with
    | some fw => if fw == "" then mm1 else dictSet mm1 "sender_framework" fw
    | none => mm1
  { content := content, sender_id := sender_id, sender_name := sender_name,
    metadata := mm2, message_id := message_id, sender_role := rf.1,
    sender_framework := rf.2 }

/-- `CommunicationHub.send_message`. -/
def sendMessage (hub : Hub) (session_id content sender_id sender_name : String)
    (metadata : Option (List (String × String))) (message_id : String) :
    Except PyError (Hub × ChatMessage) :=
  match pyLookup hub session_id with
  | none => .error (.valueError ("Session " ++ session_id ++ " not found"))
  | some s =>
    let msg := builtMessage content sender_id sender_name metadata message_id
    .ok (dictSet hub session_id { s with messages := s.messages ++ [msg] }, msg)

/-- `CommunicationHub.create_session` (the fresh UUID `session_id` and the
kickoff message's UUID are passed in). -/
def createSession (hub : Hub) (task : String) (agents : List AgentMetadata)
    (session_id message_id : String) : Except PyError (Hub × String) :=
  if agents.isEmpty then
    .error (.valueError "Cannot create session with empty agents list")
  else
    let agent_ids := agents.map (fun a => a.id)
    let hub1 := dictSet hub session_id
      { session_id := session_id, metadata := [("agents", agent_ids)],
        task := task, messages := [], is_active := true }
    match sendMessage hub1 session_id ("Session started with task: " ++ task)
        "system" "System" (some [("type", "system"), ("action", "session_start")])
        message_id with
    | .error e => .error e
    | .ok (hub2, _) => .ok (hub2, session_id)

/-- `CommunicationHub.terminate_session`: marks the session inactive, then
posts a `"Session terminated"` system message (so repeat calls keep appending
to the log). -/
def terminateSession (hub : Hub) (session_id message_id : String) :
    Except PyError (Hub × Bool) :=
  match pyLookup hub session_id with
  | none => .error (.valueError ("Session " ++ session_id ++ " not found"))
  | some s =>
    let hub1 := dictSet hub session_id { s with is_active := false }
    match sendMessage hub1 session_id "Session terminated" "system" "System"
        (some [("type", "system"), ("action", "session_terminate")]) message_id with
    | .error _ => .ok (hub1, false)
    | .ok (hub2, _) => .ok (hub2, true)

/-! ### Supervisor session records (`SupervisorManager.active_sessions`) -/

/-- One `active_sessions` record. -/
structure SessionInfo where
  task : String
  agents : List String
  status : String
deriving DecidableEq, Repr

/-- The supervisor's `active_sessions` dict. -/
abbrev SupSessions := List (String × SessionInfo)

/-- `SupervisorManager.terminate_collaboration`: posts a supervisor-authored
termination message, terminates the hub session, then marks the record
`"terminated"`.  Message UUIDs are passed in. -/
def terminateCollaboration (sup : SupSessions) (hub : Hub)
    (session_id mid1 mid2 : String) :
    Except PyError (SupSessions × Hub × Bool) :=
  match pyLookup sup session_id with
  | none => .error (.valueError ("Session " ++ session_id ++ " not found"))
  | some info =>
    match sendMessage hub session_id
        "This collaboration session has been terminated by the supervisor."
        "system" "Supervisor" (some [("type", "system"), ("action", "terminate")])
        mid1 with
    | .error e => .error e
    | .ok (hub1, _) =>
      match terminateSession hub1 session_id mid2 with
      | .error e => .error e
      | .ok (hub2, _) =>
        .ok (dictSet sup session_id { info with status := "terminated" },
             hub2, true)

/-! ### Transcript formatting (`ChatSession.get_formatted_history`) -/

/-- The in-place truncation applied to an over-long message's content. -/
def pyTruncateContent (content : String) (maxChars : Nat) : String :=
  String.mk (content.toList.take maxChars) ++ "... [truncated, " ++
    toString content.toList.length ++ " chars total]"

/-- The (possibly) truncated message as it exists after the formatting loop
touched it: `msg.content` is overwritten whenever the content exceeds the cap. -/
def mutateMsg (m : ChatMessage) (maxChars : Nat) : ChatMessage :=
  if maxChars < m.content.toList.length then
    { m with content := pyTruncateContent m.content maxChars }
  else m

/-- The sender line of `ChatMessage.format_for_prompt`: everything before the
message content. -/
def promptHeader (m : ChatMessage) (includeFramework : Bool) : String :=
  let fw : Option String :=
    if includeFramework then
      match m.sender_framework with
      | some f => if f == "" then (if m.metadata.isEmpty then none
                    else pyLookup m.metadata "framework")
                  else some f
      | none => if m.metadata.isEmpty then none
                else pyLookup m.metadata "framework"
    else none
  let fwInfo := match fw with
    | some f => if f == "" then "" else " [Framework: " ++ f ++ "]"
    | none => ""
  "## Message from " ++ m.sender_name ++ fwInfo ++ ":\n"

/-- `ChatMessage.format_for_prompt`. -/
def formatForPrompt (m : ChatMessage) (includeFramework : Bool) : String :=
  promptHeader m includeFramework ++ m.content

/-- `exclude_senders or set(["system"])`: `None` and the empty set are falsy
and replaced by the default exclusion set. -/
def effectiveExcl (excludeSenders : Option (List String)) : List String :=
  match excludeSenders with
  | none => ["system"]
  | some l => if l.isEmpty then ["system"] else l

/-- `ChatSession.get_formatted_history`.  Returns the formatted transcript
together with the session as it exists afterwards: the loop assigns
`msg.content` in place for every rendered over-long message, so the resulting
session differs from the input whenever truncation fired. -/
def getFormattedHistory (s : ChatSession)
    (excludeSenders : Option (List String)) (includeFramework : Bool)
    (maxMessages : Option Nat) (maxChars : Nat := 5000) :
    String × ChatSession :=
  let excl := effectiveExcl excludeSenders
  let withIdx := s.messages.enum
  let filteredIdx := withIdx.filter (fun p => decide (p.2.sender_id ∉ excl))
  let limitedIdx := match maxMessages with
    | some n =>
      if n ≠ 0 ∧ n < filteredIdx.length
      then filteredIdx.drop (filteredIdx.length - n) else filteredIdx
    | none => filteredIdx
  let formatted := limitedIdx.foldl
    (fun acc p =>
      acc ++ (formatForPrompt (mutateMsg p.2 maxChars) includeFramework ++ "\n\n"))
    "\n\n### CONVERSATION HISTORY ###\n\n"
  let renderedIdx : List Nat := limitedIdx.map (fun p => p.1)
  let newMessages := withIdx.map
    (fun p => if p.1 ∈ renderedIdx then mutateMsg p.2 maxChars else p.2)
  (formatted, { s with messages := newMessages })

/-! ### Concrete instances used by counterexamples and witnesses -/

/-- A ready registry agent offering only `text_generation` (C4). -/
def regAgentC4 : AgentMetadata :=
  { id := "a1", name := "n", description := "d", system_prompt := "",
    framework := .autogen, status := .ready,
    capabilities := some [{ name := "text_generation", description := "" }] }

/-- Registry holding only `regAgentC4` (C4). -/
def registryC4 : List AgentMetadata := [regAgentC4]

/-- A plain agent used to create sessions in hub witnesses (C5). -/
def agentC5 : AgentMetadata :=
  { id := "a1", name := "Agent One", description := "d", system_prompt := "",
    framework := .autogen }

/-- A hub with one empty active session, for the C6 counterexample. -/
def hubC6 : Hub :=
  [("s1", { session_id := "s1", metadata := [], task := "t", messages := [],
            is_active := true })]

/-- A hub with one empty active session, for the C6 witness. -/
def hubC6w : Hub :=
  [("s2", { session_id := "s2", metadata := [], task := "t", messages := [],
            is_active := true })]

/-- A session holding one five-character agent message (C7). -/
def sessC7 : ChatSession :=
  { session_id := "s", metadata := [], task := "t",
    messages := [{ content := "abcde", sender_id := "a1", sender_name := "A",
                   metadata := [], message_id := "m", sender_role := "agent",
                   sender_framework := none }],
    is_active := true }

/-- A session holding one five-character agent message (C8). -/
def sessC8 : ChatSession :=
  { session_id := "s", metadata := [], task := "t",
    messages := [{ content := "abcde", sender_id := "a1", sender_name := "A",
                   metadata := [], message_id := "m", sender_role := "agent",
                   sender_framework := none }],
    is_active := true }

/-- The single message of `sessC8w` (C8 witness). -/
def msgC8w : ChatMessage :=
  { content := "xyzzy", sender_id := "a2", sender_name := "B",
    metadata := [], message_id := "m", sender_role := "agent",
    sender_framework := none }

/-- A session holding one over-long agent message (C8 witness). -/
def sessC8w : ChatSession :=
  { session_id := "s", metadata := [], task := "t", messages := [msgC8w],
    is_active := true }

/-- A hub with one empty active session, for the C9 counterexample. -/
def hubC9 : Hub :=
  [("s1", { session_id := "s1", metadata := [], task := "t", messages := [],
            is_active := true })]

/-- The hub after terminating `hubC9`'s session once. -/
def hubC9a : Hub :=
  match terminateSession hubC9 "s1" "m1" with
  | .ok (h, _) => h
  | .error _ => []

/-- The hub after terminating the already-terminated session again. -/
def hubC9b : Hub :=
  match terminateSession hubC9a "s1" "m2" with
  | .ok (h, _) => h
  | .error _ => []

/-- A hub with one empty active session, for the C9 witness. -/
def hubC9w : Hub :=
  [("w1", { session_id := "w1", metadata := [], task := "t", messages := [],
            is_active := true })]

/-- A supervisor record table for the C9 witness. -/
def supC9w : SupSessions :=
  [("w1", { task := "t", agents := ["a1"], status := "active" })]

/-- The empty session used inside `hubC9w`. -/
def sessC9w : ChatSession :=
  { session_id := "w1", metadata := [], task := "t", messages := [],
    is_active := true }

/-- The supervisor record stored in `supC9w`. -/
def infoC9w : SessionInfo := { task := "t", agents := ["a1"], status := "active" }

/-- The `"Session terminated"` system message `terminate_session` appends. -/
def termMsg (mid : String) : ChatMessage :=
  builtMessage "Session terminated" "system" "System"
    (some [("type", "system"), ("action", "session_terminate")]) mid

/-- The supervisor-authored message `terminate_collaboration` posts first. -/
def supTermMsg (mid : String) : ChatMessage :=
  builtMessage "This collaboration session has been terminated by the supervisor."
    "system" "Supervisor" (some [("type", "system"), ("action", "terminate")]) mid

/-- The message built in the C6 witness scenario. -/
def msgC6w : ChatMessage :=
  builtMessage "hi" "a1" "A" (some [("type", "system")]) "m9"

/-- C1 witness: a writer agent depending on the researcher `"b"`. -/
def agentC1a : AgentMetadata :=
  { id := "a", name := "writer agent", description := "writes the report",
    system_prompt := "", framework := .autogen,
    config := some [("depends_on", ConfigVal.str "b")] }

/-- C1 witness: the researcher agent. -/
def agentC1b : AgentMetadata :=
  { id := "b", name := "research agent", description := "researches",
    system_prompt := "", framework := .autogen }

/-- C2 witness: a writer agent (priority 3). -/
def agentC2w : AgentMetadata :=
  { id := "w", name := "writer agent", description := "writes",
    system_prompt := "", framework := .autogen }

/-- C2 witness: a research agent (priority 1). -/
def agentC2r : AgentMetadata :=
  { id := "r", name := "research agent", description := "researches",
    system_prompt := "", framework := .autogen }

/-- C10 counterexample: first agent with the duplicated id `"x"`. -/
def agentC10x1 : AgentMetadata :=
  { id := "x", name := "p", description := "q", system_prompt := "",
    framework := .autogen }

/-- C10 counterexample: second agent with the duplicated id `"x"`. -/
def agentC10x2 : AgentMetadata :=
  { id := "x", name := "r", description := "s", system_prompt := "",
    framework := .autogen }

/-- C10 counterexample: an agent depending on the duplicated id. -/
def agentC10y : AgentMetadata :=
  { id := "y", name := "t", description := "u", system_prompt := "",
    framework := .autogen, config := some [("depends_on", ConfigVal.str "x")] }

/-- C10 witness: an agent depending on `"wb"`. -/
def agentC10a : AgentMetadata :=
  { id := "wa", name := "n1", description := "d1", system_prompt := "",
    framework := .autogen, config := some [("depends_on", ConfigVal.str "wb")] }

/-- C10 witness: the dependency target. -/
def agentC10b : AgentMetadata :=
  { id := "wb", name := "n2", description := "d2", system_prompt := "",
    framework := .autogen }

/-! ### Dictionary helper lemmas -/

/-- Overwriting an existing key makes `pyLookup` return the new value. -/
theorem pyLookup_map_overwrite {α : Type} (m : List (String × α)) (k : String)
    (v : α) (h : m.any (fun e => decide (e.1 = k)) = true) :
    pyLookup (m.map (fun e => if e.1 = k then (k, v) else e)) k = some v := by
  induction m with
  | nil => simp at h
  | cons e rest ih =>
    simp only [List.any_cons, Bool.or_eq_true, decide_eq_true_eq] at h
    by_cases he : e.1 = k
    · simp [pyLookup, he]
    · have h2 : rest.any (fun e => decide (e.1 = k)) = true := by
        rcases h with h | h
        · exact absurd h he
        · simpa using h
      simp [pyLookup, he, ih h2]

/-- Appending a missing key makes `pyLookup` return the new value. -/
theorem pyLookup_append_missing {α : Type} (m : List (String × α)) (k : String)
    (v : α) (h : m.any (fun e => decide (e.1 = k)) = false) :
    pyLookup (m ++ [(k, v)]) k = some v := by
  induction m with
  | nil => simp [pyLookup]
  | cons e rest ih =>
    simp only [List.any_cons, Bool.or_eq_false_iff, decide_eq_false_iff_not] at h
    have h2 : rest.any (fun e => decide (e.1 = k)) = false := by
      rcases h with ⟨h1, h2⟩
      simpa using h2
    simp [pyLookup, h.1, ih h2]

/-- Python `d[k] = v` followed by `d[k]` yields `v`. -/
theorem pyLookup_dictSet_self {α : Type} (m : List (String × α)) (k : String)
    (v : α) : pyLookup (dictSet m k v) k = some v := by
  unfold dictSet
  by_cases h : m.any (fun e => decide (e.1 = k)) = true
  · simp only [h, if_true]
    exact pyLookup_map_overwrite m k v h
  · simp only [Bool.not_eq_true] at h
    simp only [h, Bool.false_eq_true, if_false]
    exact pyLookup_append_missing m k v h

/-- `send_message` on an existing session appends the built message. -/
theorem sendMessage_ok (hub : Hub) (sid c sd sn : String)
    (md : Option (List (String × String))) (mid : String) (s : ChatSession)
    (h : pyLookup hub sid = some s) :
    sendMessage hub sid c sd sn md mid =
      .ok (dictSet hub sid { s with messages := s.messages ++ [builtMessage c sd sn md mid] },
           builtMessage c sd sn md mid) := by
  simp [sendMessage, h]

/-- `terminate_session` on an existing session: deactivates it, then appends a
`"Session terminated"` system message, and returns `True`. -/
theorem terminateSession_ok (hub : Hub) (sid mid : String) (s : ChatSession)
    (h : pyLookup hub sid = some s) :
    terminateSession hub sid mid =
      .ok (dictSet (dictSet hub sid { s with is_active := false }) sid
            { s with is_active := false,
                     messages := s.messages ++
                       [builtMessage "Session terminated" "system" "System"
                         (some [("type", "system"), ("action", "session_terminate")]) mid] },
           true) := by
  have h1 : pyLookup (dictSet hub sid { s with is_active := false }) sid =
      some { s with is_active := false } := pyLookup_dictSet_self ..
  simp [terminateSession, h, sendMessage, h1]

/-! ### C3: `analyze_task` fallback capabilities -/

/-- C3 (counterexample): when the LLM collaborator raises, the keyword
fallback on the task `"data"` yields `["data_analysis"]`, not the claimed
single default `["text_generation"]`. -/
theorem analyzeTaskFallback_data_not_default :
    (analyzeTaskFallback "data").required_capabilities = ["data_analysis"] ∧
    (analyzeTaskFallback "data").required_capabilities ≠ ["text_generation"] := by
  decide

/-- C3 (amended): when the LLM collaborator raises, `analyze_task` falls back
to keyword analysis of the task; the resulting `required_capabilities` is
always non-empty, and it equals exactly `["text_generation"]` iff the task
contains none of the keywords `code`, `programming`, `math`, `data`
(case-insensitively; `writing`/`research` alone also yield exactly
`["text_generation"]`). -/
theorem analyzeTaskFallback_nonempty_default_iff (task : String) :
    (analyzeTaskFallback task).required_capabilities ≠ [] ∧
    ((analyzeTaskFallback task).required_capabilities = ["text_generation"] ↔
      strContains (pyStrToLower task) "code" = false ∧
      strContains (pyStrToLower task) "programming" = false ∧
      strContains (pyStrToLower task) "math" = false ∧
      strContains (pyStrToLower task) "data" = false) := by
  cases hc : strContains (pyStrToLower task) "code" <;>
  cases hp : strContains (pyStrToLower task) "programming" <;>
  cases hm : strContains (pyStrToLower task) "math" <;>
  cases hw : strContains (pyStrToLower task) "writing" <;>
  cases hr : strContains (pyStrToLower task) "research" <;>
  cases hd : strContains (pyStrToLower task) "data" <;>
    simp [analyzeTaskFallback, hc, hp, hm, hw, hr, hd]

/-! ### C4: `select_agents` with no matching agent -/

/-- C4 (counterexample): with a non-empty registry whose only agent lacks the
required capability, `select_agents` returns the empty list, not the full
registry. -/
theorem selectAgents_no_match_counterexample :
    selectAgents registryC4 ["code_execution"] = [] ∧
    registryC4 ≠ [] ∧
    selectAgents registryC4 ["code_execution"] ≠ registryC4 := by
  decide

/-- C4 (amended): when no registered agent matches any required capability,
`select_agents` returns the empty list (the API layer then fails the task with
`NoSuitableAgents`). -/
theorem selectAgents_no_match_empty (registry : List AgentMetadata)
    (req : List String)
    (h : ∀ c ∈ req, findAgentsByCapability registry c = []) :
    selectAgents registry req = [] := by
  have key : ∀ (req2 : List String) (acc : List AgentMetadata),
      (∀ c ∈ req2, findAgentsByCapability registry c = []) →
      req2.foldl (fun acc cap => acc ++ findAgentsByCapability registry cap) acc
        = acc := by
    intro req2
    induction req2 with
    | nil => intro acc _; rfl
    | cons c rest ih =>
      intro acc h2
      have hc : findAgentsByCapability registry c = [] := h2 c (by simp)
      have hrest : ∀ d ∈ rest, findAgentsByCapability registry d = [] := by
        intro d hd
        exact h2 d (by simp [hd])
      simp only [List.foldl_cons, hc, List.append_nil]
      exact ih acc hrest
  unfold selectAgents
  rw [key req [] h]
  rfl

/-- C4 witness: instantiating the amended theorem on the concrete registry. -/
theorem selectAgents_no_match_empty_witness :
    (∀ c ∈ ["code_execution"], findAgentsByCapability registryC4 c = []) ∧
    selectAgents registryC4 ["code_execution"] = [] := by
  refine ⟨by decide, selectAgents_no_match_empty registryC4 ["code_execution"] (by decide)⟩

/-! ### C5: `create_session` -/

/-- C5: `create_session` with an empty agent list fails with the
`InvalidInput` `ValueError`; with a non-empty agent list it succeeds and the
new session's log holds exactly one message — the system-role kickoff whose
content describes the task. -/
theorem createSession_empty_fails_kickoff (hub : Hub) (task : String)
    (agents : List AgentMetadata) (sid mid : String) :
    createSession hub task [] sid mid =
      .error (.valueError "Cannot create session with empty agents list") ∧
    (agents ≠ [] → ∃ hub2,
      createSession hub task agents sid mid = .ok (hub2, sid) ∧
      pyLookup hub2 sid = some
        { session_id := sid,
          metadata := [("agents", agents.map (fun a => a.id))],
          task := task,
          messages := [builtMessage ("Session started with task: " ++ task)
            "system" "System"
            (some [("type", "system"), ("action", "session_start")]) mid],
          is_active := true } ∧
      (builtMessage ("Session started with task: " ++ task) "system" "System"
        (some [("type", "system"), ("action", "session_start")]) mid).sender_role
          = "system" ∧
      (builtMessage ("Session started with task: " ++ task) "system" "System"
        (some [("type", "system"), ("action", "session_start")]) mid).content
          = "Session started with task: " ++ task) := by
  constructor
  · simp [createSession]
  · intro hne
    have hne2 : agents.isEmpty = false := by
      cases agents with
      | nil => exact absurd rfl hne
      | cons a rest => rfl
    have hfresh : pyLookup (dictSet hub sid
        { session_id := sid,
          metadata := [("agents", agents.map (fun a => a.id))],
          task := task, messages := [], is_active := true }) sid =
        some { session_id := sid,
               metadata := [("agents", agents.map (fun a => a.id))],
               task := task, messages := [], is_active := true } :=
      pyLookup_dictSet_self ..
    refine ⟨dictSet (dictSet hub sid
        { session_id := sid,
          metadata := [("agents", agents.map (fun a => a.id))],
          task := task, messages := [], is_active := true }) sid
        { session_id := sid,
          metadata := [("agents", agents.map (fun a => a.id))],
          task := task,
          messages := [builtMessage ("Session started with task: " ++ task)
            "system" "System"
            (some [("type", "system"), ("action", "session_start")]) mid],
          is_active := true }, ?_, ?_, rfl, rfl⟩
    · simp [createSession, hne2, sendMessage, hfresh]
    · simpa using pyLookup_dictSet_self ..

/-- C5 witness: a concrete instantiation of the non-empty branch. -/
theorem createSession_empty_fails_kickoff_witness :
    ([agentC5] ≠ ([] : List AgentMetadata)) ∧
    (∃ hub2,
      createSession [] "t" [agentC5] "s1" "m1" = .ok (hub2, "s1") ∧
      pyLookup hub2 "s1" = some
        { session_id := "s1",
          metadata := [("agents", [agentC5].map (fun a => a.id))],
          task := "t",
          messages := [builtMessage ("Session started with task: " ++ "t")
            "system" "System"
            (some [("type", "system"), ("action", "session_start")]) "m1"],
          is_active := true } ∧
      (builtMessage ("Session started with task: " ++ "t") "system" "System"
        (some [("type", "system"), ("action", "session_start")]) "m1").sender_role
          = "system" ∧
      (builtMessage ("Session started with task: " ++ "t") "system" "System"
        (some [("type", "system"), ("action", "session_start")]) "m1").content
          = "Session started with task: " ++ "t") :=
  ⟨by decide,
   (createSession_empty_fails_kickoff [] "t" [agentC5] "s1" "m1").2 (by decide)⟩

/-! ### C6: `send_message` role derivation -/

/-- C6 (counterexample): a message sent by `"a1"` with metadata
`{"type": "system"}` gets `sender_role = "system"` even though the sender id
is not `"system"`, refuting the claimed iff. -/
theorem sendMessage_role_counterexample :
    (match sendMessage hubC6 "s1" "hi" "a1" "Agent"
        (some [("type", "system")]) "m2" with
     | .ok r => r.2.sender_role
     | .error _ => "error") = "system" ∧
    ("a1" : String) ≠ "system" := by
  constructor
  · rfl
  · decide

/-- C6 (amended): `send_message` to an unknown session fails with the
`NotFound` `ValueError`; on an existing session the returned message's
`sender_role` is `"system"` iff the sender id is `"system"` or the metadata
carries `type = "system"`. -/
theorem sendMessage_notFound_and_role (hub : Hub) (sid c sd sn : String)
    (md : Option (List (String × String))) (mid : String) :
    (pyLookup hub sid = none →
      sendMessage hub sid c sd sn md mid =
        .error (.valueError ("Session " ++ sid ++ " not found"))) ∧
    (∀ hub2 msg, sendMessage hub sid c sd sn md mid = .ok (hub2, msg) →
      (msg.sender_role = "system" ↔
        sd = "system" ∨ pyLookup (md.getD []) "type" = some "system")) := by
  constructor
  · intro h
    simp [sendMessage, h]
  · intro hub2 msg hok
    cases hl : pyLookup hub sid with
    | none => simp [sendMessage, hl] at hok
    | some s =>
      rw [sendMessage_ok hub sid c sd sn md mid s hl] at hok
      have hmsg : msg = builtMessage c sd sn md mid := by
        injection hok with hok1
        injection hok1 with hok2 hok3
        exact hok3.symm
      subst hmsg
      show (computeSenderRoleFw sd md).1 = "system" ↔
        sd = "system" ∨ pyLookup (md.getD []) "type" = some "system"
      by_cases hsd : sd = "system"
      · simp [computeSenderRoleFw, hsd]
      · cases md with
        | none => simp [computeSenderRoleFw, hsd, pyLookup]
        | some m =>
          by_cases hme : m = []
          · subst hme
            simp [computeSenderRoleFw, hsd, pyLookup]
          · have hne : m.isEmpty = false := by
              cases m with
              | nil => exact absurd rfl hme
              | cons e rest => rfl
            cases hql : pyLookup m "type" with
            | none => simp [computeSenderRoleFw, hsd, hne, hql]
            | some t =>
              by_cases ht : t = "system" <;>
                simp [computeSenderRoleFw, hsd, hne, hql, ht]

/-- C6 witness: the not-found branch on the empty hub and the role iff on a
concrete successful send. -/
theorem sendMessage_notFound_and_role_witness :
    sendMessage ([] : Hub) "zz" "c" "a" "A" none "m" =
      .error (.valueError ("Session " ++ "zz" ++ " not found")) ∧
    (msgC6w.sender_role = "system" ↔
      "a1" = "system" ∨
      pyLookup ((some [("type", "system")] :
        Option (List (String × String))).getD []) "type" = some "system") := by
  constructor
  · exact (sendMessage_notFound_and_role [] "zz" "c" "a" "A" none "m").1 rfl
  · exact (sendMessage_notFound_and_role hubC6w "s2" "hi" "a1" "A"
      (some [("type", "system")]) "m9").2 _ msgC6w rfl

/-! ### C7: rendering mutates the message log -/

/-- C7 (code bug): `get_formatted_history` overwrites the stored content of an
over-long message while rendering — the session's log is not immutable.  On a
one-message session with content `"abcde"` and a 2-character cap the stored
content becomes the truncated string. -/
theorem getFormattedHistory_mutates_log :
    (getFormattedHistory sessC7 none false none 2).2.messages.map
      (fun m => m.content) = ["ab... [truncated, 5 chars total]"] ∧
    sessC7.messages.map (fun m => m.content) = ["abcde"] ∧
    (getFormattedHistory sessC7 none false none 2).2.messages ≠
      sessC7.messages := by
  decide

/-! ### C9: repeat termination is not a no-op -/

/-- C9 (counterexample): terminating the already-terminated session `"s1"`
again succeeds but appends another `"Session terminated"` message — the
session state is not left unchanged. -/
theorem terminateSession_repeat_appends :
    (match terminateSession hubC9a "s1" "m2" with
     | .ok r => r.2
     | .error _ => false) = true ∧
    (match terminateSession hubC9a "s1" "m2" with
     | .ok r => r.1
     | .error _ => []) = hubC9b ∧
    hubC9b ≠ hubC9a ∧
    (pyLookup hubC9a "s1").map (fun s => s.messages.length) = some 1 ∧
    (pyLookup hubC9b "s1").map (fun s => s.messages.length) = some 2 := by
  refine ⟨rfl, rfl, by decide, by decide, by decide⟩

/-! ### C8: truncation marker in the formatted transcript -/

/-- C8 (counterexample): the transcript renders an over-long message with the
marker `"... [truncated, N chars total]"` — with a space after the ellipsis —
so the claimed space-less `"...[truncated, N chars total]"` suffix never
appears. -/
theorem truncation_suffix_counterexample :
    strContains ((getFormattedHistory sessC8 none false none 3).1)
      ("abc" ++ "...[truncated, 5 chars total]") = false ∧
    strContains ((getFormattedHistory sessC8 none false none 3).1)
      ("abc" ++ "... [truncated, 5 chars total]") = true ∧
    sessC8.messages.map (fun m => m.content) = ["abcde"] := by
  decide

/-- A string-append fold leaves its initial segment as a prefix. -/
theorem foldl_strAppend_extract {α : Type} (g : α → String) :
    ∀ (l : List α) (a : String), ∃ t : String,
      l.foldl (fun acc y => acc ++ g y) a = a ++ t := by
  intro l
  induction l with
  | nil =>
    intro a
    exact ⟨"", (String.append_empty a).symm⟩
  | cons y ys ih =>
    intro a
    obtain ⟨t, ht⟩ := ih (a ++ g y)
    refine ⟨g y ++ t, ?_⟩
    rw [List.foldl_cons, ht, String.append_assoc]

/-- Each list member's block occurs contiguously in a string-append fold. -/
theorem foldl_strAppend_split {α : Type} (g : α → String) :
    ∀ (l : List α) (a : String) (x : α), x ∈ l →
      ∃ pre post, l.foldl (fun acc y => acc ++ g y) a = pre ++ g x ++ post := by
  intro l
  induction l with
  | nil =>
    intro a x hx
    simp at hx
  | cons y ys ih =>
    intro a x hx
    rcases List.mem_cons.mp hx with hxy | hxs
    · subst hxy
      obtain ⟨t, ht⟩ := foldl_strAppend_extract g ys (a ++ g x)
      exact ⟨a, t, by rw [List.foldl_cons, ht]⟩
    · obtain ⟨pre, post, hp⟩ := ih (a ++ g y) x hxs
      exact ⟨pre, post, by rw [List.foldl_cons, hp]⟩

/-- Over-long content is overwritten with its truncation. -/
theorem mutateMsg_long (m : ChatMessage) (maxChars : Nat)
    (h : maxChars < m.content.toList.length) :
    mutateMsg m maxChars = { m with content := pyTruncateContent m.content maxChars } := by
  unfold mutateMsg
  rw [if_pos h]

/-- C8 (amended): every rendered message whose content exceeds the cap appears
in the formatted transcript as its first `maxChars` characters followed by
`"... [truncated, N chars total]"` (note the space after the ellipsis), where
`N` is the pre-truncation character count — this is `pyTruncateContent`. -/
theorem formattedHistory_truncation (s : ChatSession)
    (excl : Option (List String)) (incfw : Bool) (maxChars : Nat)
    (m : ChatMessage) (hm : m ∈ s.messages)
    (hs : m.sender_id ∉ effectiveExcl excl)
    (hlong : maxChars < m.content.toList.length) :
    ∃ pre post, (getFormattedHistory s excl incfw none maxChars).1 =
      pre ++ pyTruncateContent m.content maxChars ++ post := by
  have hmap : (s.messages.enum).map Prod.snd = s.messages :=
    List.enumFrom_map_snd 0 s.messages
  have hmem : m ∈ (s.messages.enum).map Prod.snd := by rw [hmap]; exact hm
  obtain ⟨q, hq, hqm⟩ := List.mem_map.mp hmem
  obtain ⟨i, m2⟩ := q
  have hm2 : m2 = m := hqm
  subst m2
  have hfil : (i, m) ∈ (s.messages.enum).filter
      (fun p => decide (p.2.sender_id ∉ effectiveExcl excl)) := by
    refine List.mem_filter.mpr ⟨hq, ?_⟩
    simpa using hs
  obtain ⟨pre0, post0, heq⟩ := foldl_strAppend_split
    (fun p : Nat × ChatMessage =>
      formatForPrompt (mutateMsg p.2 maxChars) incfw ++ "\n\n")
    ((s.messages.enum).filter
      (fun p => decide (p.2.sender_id ∉ effectiveExcl excl)))
    "\n\n### CONVERSATION HISTORY ###\n\n" (i, m) hfil
  have hunfold : (getFormattedHistory s excl incfw none maxChars).1 =
      ((s.messages.enum).filter
        (fun p => decide (p.2.sender_id ∉ effectiveExcl excl))).foldl
        (fun acc p =>
          acc ++ (formatForPrompt (mutateMsg p.2 maxChars) incfw ++ "\n\n"))
        "\n\n### CONVERSATION HISTORY ###\n\n" := rfl
  refine ⟨pre0 ++ promptHeader (mutateMsg m maxChars) incfw,
          "\n\n" ++ post0, ?_⟩
  rw [hunfold, heq]
  simp only [formatForPrompt, mutateMsg_long m maxChars hlong]
  simp [String.append_assoc]

/-- C8 witness: the amended truncation theorem on a concrete session. -/
theorem formattedHistory_truncation_witness :
    ∃ pre post, (getFormattedHistory sessC8w none false none 3).1 =
      pre ++ pyTruncateContent msgC8w.content 3 ++ post :=
  formattedHistory_truncation sessC8w none false 3 msgC8w (by decide)
    (by decide) (by decide)

/-! ### C9 (amended): repeat termination succeeds but appends messages -/

/-- `terminate_collaboration` on live supervisor record and hub session:
posts the supervisor message, terminates the hub session (appending its own
message), marks the record terminated and returns `True`. -/
theorem terminateCollaboration_ok (sup : SupSessions) (hub : Hub)
    (sid mA mB : String) (s : ChatSession) (info : SessionInfo)
    (hs : pyLookup hub sid = some s) (hi : pyLookup sup sid = some info) :
    terminateCollaboration sup hub sid mA mB =
      .ok (dictSet sup sid { info with status := "terminated" },
           dictSet (dictSet (dictSet hub sid
               { s with messages := s.messages ++ [supTermMsg mA] }) sid
               { s with messages := s.messages ++ [supTermMsg mA],
                        is_active := false }) sid
             { s with is_active := false,
                      messages := (s.messages ++ [supTermMsg mA]) ++ [termMsg mB] },
           true) := by
  have hsend := sendMessage_ok hub sid
    "This collaboration session has been terminated by the supervisor."
    "system" "Supervisor" (some [("type", "system"), ("action", "terminate")])
    mA s hs
  have hterm := terminateSession_ok
    (dictSet hub sid { s with messages := s.messages ++
      [builtMessage "This collaboration session has been terminated by the supervisor."
        "system" "Supervisor" (some [("type", "system"), ("action", "terminate")]) mA] })
    sid mB
    { s with messages := s.messages ++
      [builtMessage "This collaboration session has been terminated by the supervisor."
        "system" "Supervisor" (some [("type", "system"), ("action", "terminate")]) mA] }
    (pyLookup_dictSet_self ..)
  simp [terminateCollaboration, hi, hsend, hterm, supTermMsg, termMsg]

/-- C9 (amended): terminating an already-terminated session succeeds again
(returns `True`/ok) and leaves the inactive flag and the supervisor record's
`"terminated"` status unchanged, but it is not a no-op: each hub-level repeat
appends one `"Session terminated"` message, and each supervisor-level repeat
appends the supervisor termination message plus the hub message. -/
theorem terminate_repeat_succeeds_appends (hub : Hub) (sup : SupSessions)
    (sid : String) (s : ChatSession) (info : SessionInfo)
    (m1 m2 m3 m4 m5 m6 : String)
    (hs : pyLookup hub sid = some s) (hi : pyLookup sup sid = some info) :
    (∃ hub1 s1 hub2 s2,
      terminateSession hub sid m1 = .ok (hub1, true) ∧
      pyLookup hub1 sid = some s1 ∧ s1.is_active = false ∧
      terminateSession hub1 sid m2 = .ok (hub2, true) ∧
      pyLookup hub2 sid = some s2 ∧ s2.is_active = false ∧
      s2.messages = s1.messages ++ [termMsg m2]) ∧
    (∃ sup1 hub3 s3 sup2 hub4 s4,
      terminateCollaboration sup hub sid m3 m4 = .ok (sup1, hub3, true) ∧
      pyLookup sup1 sid = some { info with status := "terminated" } ∧
      pyLookup hub3 sid = some s3 ∧ s3.is_active = false ∧
      terminateCollaboration sup1 hub3 sid m5 m6 = .ok (sup2, hub4, true) ∧
      pyLookup sup2 sid = some { info with status := "terminated" } ∧
      pyLookup hub4 sid = some s4 ∧ s4.is_active = false ∧
      s4.messages = s3.messages ++ [supTermMsg m5, termMsg m6]) := by
  constructor
  · refine ⟨dictSet (dictSet hub sid { s with is_active := false }) sid
        { s with is_active := false, messages := s.messages ++ [termMsg m1] },
      { s with is_active := false, messages := s.messages ++ [termMsg m1] },
      dictSet (dictSet (dictSet (dictSet hub sid { s with is_active := false }) sid
          { s with is_active := false, messages := s.messages ++ [termMsg m1] }) sid
          { s with is_active := false, messages := s.messages ++ [termMsg m1] }) sid
        { s with is_active := false,
                 messages := (s.messages ++ [termMsg m1]) ++ [termMsg m2] },
      { s with is_active := false,
               messages := (s.messages ++ [termMsg m1]) ++ [termMsg m2] },
      ?g1, ?g2, ?g3, ?g4, ?g5, ?g6, ?g7⟩
    case g1 => exact terminateSession_ok hub sid m1 s hs
    case g2 => exact pyLookup_dictSet_self ..
    case g3 => rfl
    case g4 =>
      exact terminateSession_ok _ sid m2
        { s with is_active := false, messages := s.messages ++ [termMsg m1] }
        (pyLookup_dictSet_self ..)
    case g5 => exact pyLookup_dictSet_self ..
    case g6 => rfl
    case g7 => rfl
  · refine ⟨dictSet sup sid { info with status := "terminated" },
      dictSet (dictSet (dictSet hub sid
          { s with messages := s.messages ++ [supTermMsg m3] }) sid
          { s with messages := s.messages ++ [supTermMsg m3], is_active := false }) sid
        { s with is_active := false,
                 messages := (s.messages ++ [supTermMsg m3]) ++ [termMsg m4] },
      { s with is_active := false,
               messages := (s.messages ++ [supTermMsg m3]) ++ [termMsg m4] },
      dictSet (dictSet sup sid { info with status := "terminated" }) sid
        { info with status := "terminated" },
      dictSet (dictSet (dictSet (dictSet (dictSet (dictSet hub sid
          { s with messages := s.messages ++ [supTermMsg m3] }) sid
          { s with messages := s.messages ++ [supTermMsg m3], is_active := false }) sid
        { s with is_active := false,
                 messages := (s.messages ++ [supTermMsg m3]) ++ [termMsg m4] }) sid
          { s with is_active := false,
                   messages := ((s.messages ++ [supTermMsg m3]) ++ [termMsg m4])
                     ++ [supTermMsg m5] }) sid
          { s with is_active := false,
                   messages := ((s.messages ++ [supTermMsg m3]) ++ [termMsg m4])
                     ++ [supTermMsg m5] }) sid
        { s with is_active := false,
                 messages := (((s.messages ++ [supTermMsg m3]) ++ [termMsg m4])
                   ++ [supTermMsg m5]) ++ [termMsg m6] },
      { s with is_active := false,
               messages := (((s.messages ++ [supTermMsg m3]) ++ [termMsg m4])
                 ++ [supTermMsg m5]) ++ [termMsg m6] },
      ?f1, ?f2, ?f3, ?f4, ?f5, ?f6, ?f7, ?f8, ?f9⟩
    case f1 => exact terminateCollaboration_ok sup hub sid m3 m4 s info hs hi
    case f2 => exact pyLookup_dictSet_self ..
    case f3 => exact pyLookup_dictSet_self ..
    case f4 => rfl
    case f5 =>
      exact terminateCollaboration_ok
        (dictSet sup sid { info with status := "terminated" }) _ sid m5 m6
        { s with is_active := false,
                 messages := (s.messages ++ [supTermMsg m3]) ++ [termMsg m4] }
        { info with status := "terminated" }
        (pyLookup_dictSet_self ..) (pyLookup_dictSet_self ..)
    case f6 => exact pyLookup_dictSet_self ..
    case f7 => exact pyLookup_dictSet_self ..
    case f8 => rfl
    case f9 => simp

/-- C9 witness: the amended theorem instantiated on a concrete hub and
supervisor state. -/
theorem terminate_repeat_succeeds_appends_witness :
    (∃ hub1 s1 hub2 s2,
      terminateSession hubC9w "w1" "m1" = .ok (hub1, true) ∧
      pyLookup hub1 "w1" = some s1 ∧ s1.is_active = false ∧
      terminateSession hub1 "w1" "m2" = .ok (hub2, true) ∧
      pyLookup hub2 "w1" = some s2 ∧ s2.is_active = false ∧
      s2.messages = s1.messages ++ [termMsg "m2"]) ∧
    (∃ sup1 hub3 s3 sup2 hub4 s4,
      terminateCollaboration supC9w hubC9w "w1" "m3" "m4" = .ok (sup1, hub3, true) ∧
      pyLookup sup1 "w1" = some { infoC9w with status := "terminated" } ∧
      pyLookup hub3 "w1" = some s3 ∧ s3.is_active = false ∧
      terminateCollaboration sup1 hub3 "w1" "m5" "m6" = .ok (sup2, hub4, true) ∧
      pyLookup sup2 "w1" = some { infoC9w with status := "terminated" } ∧
      pyLookup hub4 "w1" = some s4 ∧ s4.is_active = false ∧
      s4.messages = s3.messages ++ [supTermMsg "m5", termMsg "m6"]) :=
  terminate_repeat_succeeds_appends hubC9w supC9w "w1" sessC9w infoC9w
    "m1" "m2" "m3" "m4" "m5" "m6" (by decide) (by decide)

/-! ### Execution-order helper lemmas -/

/-- Appending a fresh element preserves `Nodup`. -/
theorem nodup_append_single {α : Type} (l : List α) (x : α) (h : l.Nodup)
    (hx : x ∉ l) : (l ++ [x]).Nodup := by
  induction l with
  | nil => simp
  | cons a rest ih =>
    rcases List.nodup_cons.mp h with ⟨ha, hrest⟩
    have hx2 : x ∉ rest := fun hmem => hx (List.mem_cons_of_mem a hmem)
    refine List.nodup_cons.mpr ⟨?_, ih hrest hx2⟩
    intro hmem
    rcases List.mem_append.mp hmem with hmem | hmem
    · exact ha hmem
    · have : a = x := by simpa using hmem
      exact hx (this ▸ List.mem_cons_self a rest)

/-- A successful `agent_map` lookup returns an input agent with that id. -/
theorem agentMapGet_spec (agents : List AgentMetadata) (aid : String)
    (a : AgentMetadata) (h : agentMapGet agents aid = some a) :
    a.id = aid ∧ a ∈ agents := by
  have hmem : a ∈ agents.filter (fun b => decide (b.id = aid)) :=
    List.mem_of_getLast?_eq_some h
  have h2 := List.mem_filter.mp hmem
  exact ⟨by simpa using h2.2, h2.1⟩

/-- An id carried by some input agent is in `agent_map`. -/
theorem any_id_isSome (agents : List AgentMetadata) (d : String)
    (h : agents.any (fun b => decide (b.id = d)) = true) :
    (agentMapGet agents d).isSome := by
  obtain ⟨b, hb, hbd⟩ := List.any_eq_true.mp h
  have hmem : b ∈ agents.filter (fun b => decide (b.id = d)) :=
    List.mem_filter.mpr ⟨hb, hbd⟩
  unfold agentMapGet
  rw [List.getLast?_isSome]
  intro hnil
  rw [hnil] at hmem
  simp at hmem

/-- Every id stored in the dependency dict resolves in `agent_map`. -/
theorem depsGet_valid (agents : List AgentMetadata) (aid d : String)
    (h : d ∈ (depsGet agents aid).getD []) :
    (agentMapGet agents d).isSome := by
  cases hdg : depsGet agents aid with
  | none =>
    rw [hdg] at h
    simp at h
  | some L =>
    rw [hdg] at h
    simp only [Option.getD_some] at h
    have hmemL : L ∈ (agents.filter (fun a => decide (a.id = aid))).filterMap
        (declaredDeps agents) := List.mem_of_getLast?_eq_some hdg
    obtain ⟨a, _, hda⟩ := List.mem_filterMap.mp hmemL
    cases hcl : configLookup a.config "depends_on" with
    | none =>
      simp [declaredDeps, hcl] at hda
    | some v =>
      cases v with
      | str s =>
        simp only [declaredDeps, hcl] at hda
        by_cases hany : agents.any (fun b => decide (b.id = s)) = true
        · rw [if_pos hany] at hda
          injection hda with hda2
          rw [← hda2] at h
          have hd : d = s := by simpa using h
          rw [hd]
          exact any_id_isSome agents s hany
        · rw [if_neg hany] at hda
          exact absurd hda (by simp)
      | int n =>
        simp [declaredDeps, hcl] at hda
      | list ds =>
        simp only [declaredDeps, hcl, Option.some.injEq] at hda
        rw [← hda] at h
        have h2 := List.mem_filter.mp h
        exact any_id_isSome agents d h2.2

/-- `foldDeps` preserves any property each step preserves. -/
theorem foldDeps_pres (P : ExecState → Prop)
    (f : String → ExecState → Option ExecState)
    (hf : ∀ aid st st2, f aid st = some st2 → P st → P st2) :
    ∀ (D : List String) (st st2 : ExecState),
      foldDeps f D st = some st2 → P st → P st2 := by
  intro D
  induction D with
  | nil =>
    intro st st2 h hp
    simp only [foldDeps, Option.some.injEq] at h
    rwa [← h]
  | cons d ds ih =>
    intro st st2 h hp
    unfold foldDeps at h
    cases hfd : f d st with
    | none => rw [hfd] at h; exact absurd h (by simp)
    | some stm =>
      rw [hfd] at h
      exact ih stm st2 h (hf d st stm hfd hp)

/-- `foldDeps` only grows the processed set, given each step does. -/
theorem foldDeps_mono (f : String → ExecState → Option ExecState)
    (hf : ∀ aid st st2, f aid st = some st2 →
      ∀ x ∈ st.processed, x ∈ st2.processed) :
    ∀ (D : List String) (st st2 : ExecState),
      foldDeps f D st = some st2 → ∀ x ∈ st.processed, x ∈ st2.processed := by
  intro D
  induction D with
  | nil =>
    intro st st2 h x hx
    simp only [foldDeps, Option.some.injEq] at h
    rwa [← h]
  | cons d ds ih =>
    intro st st2 h x hx
    unfold foldDeps at h
    cases hfd : f d st with
    | none => rw [hfd] at h; exact absurd h (by simp)
    | some stm =>
      rw [hfd] at h
      exact ih stm st2 h x (hf d st stm hfd x hx)

/-- `add_with_dependencies` only grows the processed set. -/
theorem addWithDependencies_mono (agents : List AgentMetadata) :
    ∀ (fuel : Nat) (aid : String) (st st2 : ExecState),
      addWithDependencies agents fuel aid st = some st2 →
      ∀ x ∈ st.processed, x ∈ st2.processed := by
  intro fuel
  induction fuel with
  | zero =>
    intro aid st st2 h
    simp [addWithDependencies] at h
  | succ fuel ih =>
    intro aid st st2 h x hx
    unfold addWithDependencies at h
    by_cases hin : aid ∈ st.processed
    · rw [if_pos hin] at h
      injection h with h2
      rwa [← h2]
    · rw [if_neg hin] at h
      cases hfd : foldDeps (addWithDependencies agents fuel)
          ((depsGet agents aid).getD []) st with
      | none => rw [hfd] at h; exact absurd h (by simp)
      | some st1 =>
        rw [hfd] at h
        dsimp only at h
        have hx1 : x ∈ st1.processed :=
          foldDeps_mono _ (fun a s s2 hh => ih a s s2 hh) _ st st1 hfd x hx
        by_cases hin1 : aid ∈ st1.processed
        · rw [if_pos hin1] at h
          injection h with h2
          rwa [← h2]
        · rw [if_neg hin1] at h
          cases hmg : agentMapGet agents aid with
          | some a =>
            rw [hmg] at h
            injection h with h2
            rw [← h2]
            exact List.mem_append_left _ hx1
          | none =>
            rw [hmg] at h
            injection h with h2
            rwa [← h2]

/-- After a successful `add_with_dependencies` call on an id present in
`agent_map`, that id is processed. -/
theorem addWithDependencies_processed (agents : List AgentMetadata) :
    ∀ (fuel : Nat) (aid : String) (st st2 : ExecState),
      addWithDependencies agents fuel aid st = some st2 →
      (agentMapGet agents aid).isSome → aid ∈ st2.processed := by
  intro fuel
  induction fuel with
  | zero =>
    intro aid st st2 h
    simp [addWithDependencies] at h
  | succ fuel _ =>
    intro aid st st2 h hsome
    unfold addWithDependencies at h
    by_cases hin : aid ∈ st.processed
    · rw [if_pos hin] at h
      injection h with h2
      rwa [← h2]
    · rw [if_neg hin] at h
      cases hfd : foldDeps (addWithDependencies agents fuel)
          ((depsGet agents aid).getD []) st with
      | none => rw [hfd] at h; exact absurd h (by simp)
      | some st1 =>
        rw [hfd] at h
        dsimp only at h
        by_cases hin1 : aid ∈ st1.processed
        · rw [if_pos hin1] at h
          injection h with h2
          rwa [← h2]
        · rw [if_neg hin1] at h
          cases hmg : agentMapGet agents aid with
          | some a =>
            rw [hmg] at h
            dsimp only at h
            injection h with h2
            rw [← h2]
            exact List.mem_append_right _ (by simp)
          | none =>
            rw [hmg] at hsome
            simp at hsome

/-- After folding over a dependency list, every resolvable listed id is
processed. -/
theorem foldDeps_processed (agents : List AgentMetadata)
    (f : String → ExecState → Option ExecState)
    (hmono : ∀ aid st st2, f aid st = some st2 →
      ∀ x ∈ st.processed, x ∈ st2.processed)
    (hpost : ∀ aid st st2, f aid st = some st2 →
      (agentMapGet agents aid).isSome → aid ∈ st2.processed) :
    ∀ (D : List String) (st st2 : ExecState),
      foldDeps f D st = some st2 →
      ∀ d ∈ D, (agentMapGet agents d).isSome → d ∈ st2.processed := by
  intro D
  induction D with
  | nil =>
    intro st st2 h d hd
    simp at hd
  | cons d0 ds ih =>
    intro st st2 h d hd hsome
    unfold foldDeps at h
    cases hfd : f d0 st with
    | none => rw [hfd] at h; exact absurd h (by simp)
    | some stm =>
      rw [hfd] at h
      rcases List.mem_cons.mp hd with hd0 | hd2
      · rw [hd0]
        exact foldDeps_mono f hmono ds stm st2 h d0
          (hpost d0 st stm hfd (hd0 ▸ hsome)) 
      · exact ih stm st2 h d hd2 hsome

/-- `foldDeps` succeeds when every step succeeds. -/
theorem foldDeps_isSome (f : String → ExecState → Option ExecState) :
    ∀ (D : List String), (∀ d ∈ D, ∀ st, (f d st).isSome) →
      ∀ st, (foldDeps f D st).isSome := by
  intro D
  induction D with
  | nil =>
    intro _ st
    simp [foldDeps]
  | cons d ds ih =>
    intro hf st
    have h1 := hf d (by simp) st
    cases hfd : f d st with
    | none => rw [hfd] at h1; simp at h1
    | some stm =>
      unfold foldDeps
      rw [hfd]
      exact ih (fun d2 hd2 st2 => hf d2 (by simp [hd2]) st2) stm

/-- With enough fuel for the dependency rank, `add_with_dependencies`
terminates (the Python recursion returns). -/
theorem addWithDependencies_isSome (agents : List AgentMetadata)
    (rank : String → Nat)
    (hrank : ∀ x y, y ∈ (depsGet agents x).getD [] → rank y < rank x) :
    ∀ (fuel : Nat) (aid : String) (st : ExecState), rank aid < fuel →
      (addWithDependencies agents fuel aid st).isSome := by
  intro fuel
  induction fuel with
  | zero =>
    intro aid st h
    exact absurd h (Nat.not_lt_zero _)
  | succ fuel ih =>
    intro aid st h
    unfold addWithDependencies
    by_cases hin : aid ∈ st.processed
    · rw [if_pos hin]
      simp
    · rw [if_neg hin]
      have hfs : (foldDeps (addWithDependencies agents fuel)
          ((depsGet agents aid).getD []) st).isSome := by
        refine foldDeps_isSome _ _ ?_ st
        intro d hd st2
        refine ih d st2 ?_
        have h2 := hrank aid d hd
        omega
      cases hfd : foldDeps (addWithDependencies agents fuel)
          ((depsGet agents aid).getD []) st with
      | none => rw [hfd] at hfs; simp at hfs
      | some st1 =>
        by_cases hin1 : aid ∈ st1.processed
        · simp [hin1]
        · cases hmg : agentMapGet agents aid <;> simp [hin1, hmg]

/-- Appending an agent whose dependencies already occur in the list preserves
dependency-soundness. -/
theorem goodOrder_append (agents : List AgentMetadata)
    (l : List AgentMetadata) (a : AgentMetadata)
    (hg : GoodOrder agents l)
    (hd : ∀ d ∈ (depsGet agents a.id).getD [],
      ∃ i : Fin l.length, (l.get i).id = d) :
    GoodOrder agents (l ++ [a]) := by
  intro j d hdep
  by_cases hj : j.val < l.length
  · have hget : (l ++ [a]).get j = l.get ⟨j.val, hj⟩ := by
      simp [List.getElem_append_left hj]
    rw [hget] at hdep
    obtain ⟨i, hij, hid⟩ := hg ⟨j.val, hj⟩ d hdep
    have hi2 : i.val < (l ++ [a]).length := by
      simp
      omega
    refine ⟨⟨i.val, hi2⟩, hij, ?_⟩
    have : (l ++ [a]).get ⟨i.val, hi2⟩ = l.get i := by
      simp [List.getElem_append_left i.isLt]
    rw [this]
    exact hid
  · have hjlen : j.val = l.length := by
      have := j.isLt
      simp at this
      omega
    have hget : (l ++ [a]).get j = a := by
      simp only [List.get_eq_getElem]
      exact List.getElem_concat_length l a j.val hjlen _
    rw [hget] at hdep
    obtain ⟨i, hid⟩ := hd d hdep
    have hi2 : i.val < (l ++ [a]).length := by
      simp
      omega
    refine ⟨⟨i.val, hi2⟩, ?_, ?_⟩
    · show i.val < j.val
      omega
    · have : (l ++ [a]).get ⟨i.val, hi2⟩ = l.get i := by
        simp [List.getElem_append_left i.isLt]
      rw [this]
      exact hid

/-- `add_with_dependencies` preserves the walk invariant. -/
theorem execInv_addWithDependencies (agents : List AgentMetadata) :
    ∀ (fuel : Nat) (aid : String) (st st2 : ExecState),
      addWithDependencies agents fuel aid st = some st2 →
      ExecInv agents st → ExecInv agents st2 := by
  intro fuel
  induction fuel with
  | zero =>
    intro aid st st2 h
    simp [addWithDependencies] at h
  | succ fuel ih =>
    intro aid st st2 h hinv
    unfold addWithDependencies at h
    by_cases hin : aid ∈ st.processed
    · rw [if_pos hin] at h
      injection h with h2
      rwa [← h2]
    · rw [if_neg hin] at h
      cases hfd : foldDeps (addWithDependencies agents fuel)
          ((depsGet agents aid).getD []) st with
      | none => rw [hfd] at h; exact absurd h (by simp)
      | some st1 =>
        rw [hfd] at h
        dsimp only at h
        have hinv1 : ExecInv agents st1 :=
          foldDeps_pres (ExecInv agents) _
            (fun a s s2 hh hp => ih a s s2 hh hp) _ st st1 hfd hinv
        by_cases hin1 : aid ∈ st1.processed
        · rw [if_pos hin1] at h
          injection h with h2
          rwa [← h2]
        · rw [if_neg hin1] at h
          cases hmg : agentMapGet agents aid with
          | none =>
            rw [hmg] at h
            injection h with h2
            rwa [← h2]
          | some a =>
            rw [hmg] at h
            dsimp only at h
            injection h with h2
            rw [← h2]
            obtain ⟨haid, hamem⟩ := agentMapGet_spec agents aid a hmg
            obtain ⟨hsync, hgood, hmem, hnd⟩ := hinv1
            have hdeps : ∀ d ∈ (depsGet agents aid).getD [],
                d ∈ st1.processed := by
              intro d hd
              exact foldDeps_processed agents _
                (fun a2 s s2 hh => addWithDependencies_mono agents fuel a2 s s2 hh)
                (fun a2 s s2 hh => addWithDependencies_processed agents fuel a2 s s2 hh)
                _ st st1 hfd d hd (depsGet_valid agents aid d hd)
            refine ⟨?_, ?_, ?_, ?_⟩
            · show st1.processed ++ [aid] = (st1.order ++ [a]).map (fun a => a.id)
              rw [List.map_append, ← hsync]
              simp [haid]
            · show GoodOrder agents (st1.order ++ [a])
              refine goodOrder_append agents st1.order a hgood ?_
              intro d hd
              have hdp : d ∈ st1.processed := hdeps d (by rwa [haid] at hd)
              rw [hsync] at hdp
              obtain ⟨b, hb, hbid⟩ := List.mem_map.mp hdp
              obtain ⟨i, hi⟩ := List.mem_iff_get.mp hb
              exact ⟨i, by rw [hi]; exact hbid⟩
            · intro x hx
              rcases List.mem_append.mp hx with hx | hx
              · exact hmem x hx
              · have hxa : x = a := by simpa using hx
                rw [hxa]
                exact hamem
            · exact nodup_append_single _ _ hnd hin1

/-- The main per-agent loop preserves the walk invariant. -/
theorem execLoop_inv (agents : List AgentMetadata) (fuel : Nat) :
    ∀ (l : List AgentMetadata) (st st2 : ExecState),
      execLoop agents fuel l st = some st2 →
      ExecInv agents st → ExecInv agents st2 := by
  intro l
  induction l with
  | nil =>
    intro st st2 h hp
    simp only [execLoop, Option.some.injEq] at h
    rwa [← h]
  | cons a rest ih =>
    intro st st2 h hp
    unfold execLoop at h
    cases hfd : addWithDependencies agents fuel a.id st with
    | none => rw [hfd] at h; exact absurd h (by simp)
    | some stm =>
      rw [hfd] at h
      exact ih stm st2 h
        (execInv_addWithDependencies agents fuel a.id st stm hfd hp)

/-- The main loop only grows the processed set. -/
theorem execLoop_mono (agents : List AgentMetadata) (fuel : Nat) :
    ∀ (l : List AgentMetadata) (st st2 : ExecState),
      execLoop agents fuel l st = some st2 →
      ∀ x ∈ st.processed, x ∈ st2.processed := by
  intro l
  induction l with
  | nil =>
    intro st st2 h x hx
    simp only [execLoop, Option.some.injEq] at h
    rwa [← h]
  | cons a rest ih =>
    intro st st2 h x hx
    unfold execLoop at h
    cases hfd : addWithDependencies agents fuel a.id st with
    | none => rw [hfd] at h; exact absurd h (by simp)
    | some stm =>
      rw [hfd] at h
      exact ih stm st2 h x
        (addWithDependencies_mono agents fuel a.id st stm hfd x hx)

/-- After the main loop every iterated agent id is processed. -/
theorem execLoop_processed (agents : List AgentMetadata) (fuel : Nat) :
    ∀ (l : List AgentMetadata) (st st2 : ExecState),
      execLoop agents fuel l st = some st2 →
      ∀ a ∈ l, (agentMapGet agents a.id).isSome → a.id ∈ st2.processed := by
  intro l
  induction l with
  | nil =>
    intro st st2 h a ha
    simp at ha
  | cons a0 rest ih =>
    intro st st2 h a ha hsome
    unfold execLoop at h
    cases hfd : addWithDependencies agents fuel a0.id st with
    | none => rw [hfd] at h; exact absurd h (by simp)
    | some stm =>
      rw [hfd] at h
      rcases List.mem_cons.mp ha with ha0 | ha2
      · rw [ha0]
        exact execLoop_mono agents fuel rest stm st2 h a0.id
          (addWithDependencies_processed agents fuel a0.id st stm hfd
            (ha0 ▸ hsome))
      · exact ih stm st2 h a ha2 hsome

/-- The main loop succeeds when the fuel dominates every rank. -/
theorem execLoop_isSome (agents : List AgentMetadata) (fuel : Nat)
    (rank : String → Nat)
    (hrank : ∀ x y, y ∈ (depsGet agents x).getD [] → rank y < rank x) :
    ∀ (l : List AgentMetadata) (st : ExecState),
      (∀ a ∈ l, rank a.id < fuel) →
      (execLoop agents fuel l st).isSome := by
  intro l
  induction l with
  | nil =>
    intro st _
    simp [execLoop]
  | cons a rest ih =>
    intro st hall
    have h1 := addWithDependencies_isSome agents rank hrank fuel a.id st
      (hall a (by simp))
    cases hfd : addWithDependencies agents fuel a.id st with
    | none => rw [hfd] at h1; simp at h1
    | some stm =>
      unfold execLoop
      rw [hfd]
      exact ih stm (fun a2 ha2 => hall a2 (by simp [ha2]))

/-- The safety-net loop does nothing once every listed id is processed. -/
theorem backstop_noop (l : List AgentMetadata) (st : ExecState)
    (h : ∀ a ∈ l, a.id ∈ st.processed) : backstop l st = st := by
  induction l with
  | nil => rfl
  | cons a rest ih =>
    unfold backstop
    rw [if_pos (h a (by simp))]
    exact ih (fun a2 ha2 => h a2 (by simp [ha2]))

/-- The tuple sort equals the stable sort of the agents by priority. -/
theorem sortedByPriority_eq (agents : List AgentMetadata) :
    sortedByPriority agents = agents.insertionSort agentLe := by
  unfold sortedByPriority
  rw [List.map_insertionSort _ agentLe _ _ ?_]
  · congr 1
    rw [List.map_map]
    exact List.map_id agents
  · intro x hx y hy
    obtain ⟨a, _, rfl⟩ := List.mem_map.mp hx
    obtain ⟨b, _, rfl⟩ := List.mem_map.mp hy
    exact Iff.rfl

/-- Stable sorting permutes the input. -/
theorem sortedByPriority_perm (agents : List AgentMetadata) :
    (sortedByPriority agents).Perm agents := by
  rw [sortedByPriority_eq]
  exact List.perm_insertionSort agentLe agents

/-- With distinct ids, filtering on a member's id isolates that member. -/
theorem filter_id_nodup (agents : List AgentMetadata) (A : AgentMetadata)
    (hnodup : (agents.map (fun a => a.id)).Nodup) (hA : A ∈ agents) :
    agents.filter (fun b => decide (b.id = A.id)) = [A] := by
  induction agents with
  | nil => simp at hA
  | cons a rest ih =>
    rw [List.map_cons, List.nodup_cons] at hnodup
    rcases List.mem_cons.mp hA with h | h
    · subst h
      have hrest : rest.filter (fun b => decide (b.id = A.id)) = [] := by
        rw [List.filter_eq_nil_iff]
        intro b hb
        simp only [decide_eq_true_eq]
        intro hbid
        exact hnodup.1 (hbid ▸ List.mem_map_of_mem _ hb)
      simp [List.filter_cons, hrest]
    · have hne : ¬ (a.id = A.id) := by
        intro heq
        exact hnodup.1 (heq ▸ List.mem_map_of_mem _ h)
      simp only [List.filter_cons, decide_eq_true_eq, hne, if_false]
      exact ih hnodup.2 h

/-- With distinct ids, `agent_map` maps each member's id to that member. -/
theorem agentMapGet_of_nodup (agents : List AgentMetadata) (a : AgentMetadata)
    (hnodup : (agents.map (fun b => b.id)).Nodup) (ha : a ∈ agents) :
    agentMapGet agents a.id = some a := by
  unfold agentMapGet
  rw [filter_id_nodup agents a hnodup ha]
  rfl

/-- Mapping to ids and resolving through `agent_map` is the identity. -/
theorem filterMap_map_id (f : String → Option AgentMetadata) :
    ∀ (l : List AgentMetadata), (∀ a ∈ l, f a.id = some a) →
      (l.map (fun a => a.id)).filterMap f = l := by
  intro l
  induction l with
  | nil => intro _; rfl
  | cons a rest ih =>
    intro h
    rw [List.map_cons, List.filterMap_cons, h a (by simp)]
    rw [ih (fun b hb => h b (by simp [hb]))]

/-- A declared dependency whose target id is present ends up in the
dependency dict entry (under distinct ids). -/
theorem depsGet_of_declares (agents : List AgentMetadata)
    (A B : AgentMetadata) (hA : A ∈ agents) (hB : B ∈ agents)
    (hnodup : (agents.map (fun a => a.id)).Nodup)
    (hdep : declaresDepOn A B.id) :
    B.id ∈ (depsGet agents A.id).getD [] := by
  have hfil := filter_id_nodup agents A hnodup hA
  have hany : agents.any (fun b => decide (b.id = B.id)) = true :=
    List.any_eq_true.mpr ⟨B, hB, by simp⟩
  unfold depsGet
  rw [hfil]
  unfold declaresDepOn at hdep
  cases hcl : configLookup A.config "depends_on" with
  | none =>
    rw [hcl] at hdep
    exact hdep.elim
  | some v =>
    cases v with
    | str s =>
      rw [hcl] at hdep
      have hsB : s = B.id := hdep
      have hdecl : declaredDeps agents A = some [B.id] := by
        simp [declaredDeps, hcl, hsB, hany]
      simp [List.filterMap_cons, hdecl]
    | int n =>
      rw [hcl] at hdep
      exact hdep.elim
    | list ds =>
      rw [hcl] at hdep
      have hdecl : declaredDeps agents A =
          some (ds.filter (fun d => agents.any (fun b => decide (b.id = d)))) := by
        simp [declaredDeps, hcl]
      simp only [List.filterMap_cons, hdecl, List.filterMap_nil,
        List.getLast?_singleton, Option.getD_some]
      exact List.mem_filter.mpr ⟨hdep, hany⟩

/-- A declared dependency makes the dict non-empty. -/
theorem hasDeps_of_declares (agents : List AgentMetadata)
    (A B : AgentMetadata) (hA : A ∈ agents) (hB : B ∈ agents)
    (hdep : declaresDepOn A B.id) : hasDeps agents = true := by
  have hany : agents.any (fun b => decide (b.id = B.id)) = true :=
    List.any_eq_true.mpr ⟨B, hB, by simp⟩
  refine List.any_eq_true.mpr ⟨A, hA, ?_⟩
  unfold declaresDepOn at hdep
  cases hcl : configLookup A.config "depends_on" with
  | none =>
    rw [hcl] at hdep
    exact hdep.elim
  | some v =>
    cases v with
    | str s =>
      rw [hcl] at hdep
      have hsB : s = B.id := hdep
      simp [declaredDeps, hcl, hsB, hany]
    | int n =>
      rw [hcl] at hdep
      exact hdep.elim
    | list ds =>
      simp [declaredDeps, hcl]

/-- Joint facts about the state produced by the main loop. -/
theorem execLoop_result (agents : List AgentMetadata) (st : ExecState)
    (hexec : execLoop agents (agents.length + 1) (sortedByPriority agents)
      ⟨[], []⟩ = some st) :
    ExecInv agents st ∧ (∀ a ∈ agents, a.id ∈ st.processed) ∧
    backstop (sortedByPriority agents) st = st := by
  have hinv0 : ExecInv agents ⟨[], []⟩ := by
    refine ⟨rfl, ?_, ?_, List.nodup_nil⟩
    · intro j
      exact absurd j.isLt (by simp [ExecState.order])
    · intro a ha
      simp [ExecState.order] at ha
  have hinv := execLoop_inv agents _ _ _ _ hexec hinv0
  have hsorted : ∀ a ∈ sortedByPriority agents, a.id ∈ st.processed := by
    intro a ha
    refine execLoop_processed agents _ _ _ _ hexec a ha ?_
    exact any_id_isSome agents a.id (List.any_eq_true.mpr
      ⟨a, (sortedByPriority_perm agents).mem_iff.mp ha, by simp⟩)
  refine ⟨hinv, ?_, backstop_noop _ _ hsorted⟩
  intro a ha
  exact hsorted a ((sortedByPriority_perm agents).mem_iff.mpr ha)

/-! ### C2: no-dependency ordering -/

/-- C2: on a non-empty agent list with no `depends_on` entries,
`determine_agent_execution_order` returns exactly the input agents stably
sorted ascending by computed priority: the output is a permutation, is sorted
by `computeAgentPriority`, and agents of each priority keep their original
relative order (equal filtered subsequences). -/
theorem determineOrder_no_deps (agents : List AgentMetadata)
    (hne : agents ≠ [])
    (hnd : ∀ a ∈ agents, configLookup a.config "depends_on" = none) :
    ∃ l, determineAgentExecutionOrder agents = some l ∧
      l.Perm agents ∧
      l.Pairwise (fun a b => computeAgentPriority a ≤ computeAgentPriority b) ∧
      ∀ p : Int, l.filter (fun a => decide (computeAgentPriority a = p)) =
        agents.filter (fun a => decide (computeAgentPriority a = p)) := by
  have hdd : ∀ a ∈ agents, declaredDeps agents a = none := by
    intro a ha
    simp [declaredDeps, hnd a ha]
  have hhd : hasDeps agents = false := by
    unfold hasDeps
    rw [List.any_eq_false]
    intro a ha
    simp [hdd a ha]
  have hperm := sortedByPriority_perm agents
  have hnonempty : (sortedByPriority agents).isEmpty = false := by
    rw [List.isEmpty_eq_false]
    intro hnil
    have hlen := hperm.length_eq
    rw [hnil] at hlen
    exact hne (List.length_eq_zero.mp hlen.symm)
  haveI : IsTotal AgentMetadata agentLe :=
    ⟨fun a b => le_total (computeAgentPriority a) (computeAgentPriority b)⟩
  haveI : IsTrans AgentMetadata agentLe :=
    ⟨fun _ _ _ hab hbc => le_trans hab hbc⟩
  refine ⟨sortedByPriority agents, ?_, hperm, ?_, ?_⟩
  · simp [determineAgentExecutionOrder, hhd, hnonempty]
  · rw [sortedByPriority_eq]
    exact List.sorted_insertionSort agentLe agents
  · intro p
    have hcmem : ∀ a ∈ agents.filter
        (fun a => decide (computeAgentPriority a = p)),
        computeAgentPriority a = p := by
      intro a ha
      simpa using (List.mem_filter.mp ha).2
    have hpw : (agents.filter
        (fun a => decide (computeAgentPriority a = p))).Pairwise agentLe := by
      refine List.pairwise_of_forall_mem_list ?_
      intro a ha b hb
      show computeAgentPriority a ≤ computeAgentPriority b
      rw [hcmem a ha, hcmem b hb]
    have hsub := List.sublist_insertionSort hpw (List.filter_sublist agents)
    have hsub2 : List.Sublist
        (agents.filter (fun a => decide (computeAgentPriority a = p)))
        ((agents.insertionSort agentLe).filter
          (fun a => decide (computeAgentPriority a = p))) := by
      have h2 := hsub.filter (fun a => decide (computeAgentPriority a = p))
      rwa [List.filter_eq_self.mpr
        (fun a ha => (List.mem_filter.mp ha).2)] at h2
    have hperm2 := (List.perm_insertionSort agentLe agents).filter
      (fun a => decide (computeAgentPriority a = p))
    rw [sortedByPriority_eq]
    exact (hsub2.eq_of_length hperm2.length_eq.symm).symm

/-- C2 witness: a concrete two-agent no-dependency instantiation. -/
theorem determineOrder_no_deps_witness :
    ([agentC2w, agentC2r] ≠ ([] : List AgentMetadata)) ∧
    (∀ a ∈ [agentC2w, agentC2r], configLookup a.config "depends_on" = none) ∧
    ∃ l, determineAgentExecutionOrder [agentC2w, agentC2r] = some l ∧
      l.Perm [agentC2w, agentC2r] ∧
      l.Pairwise (fun a b => computeAgentPriority a ≤ computeAgentPriority b) ∧
      ∀ p : Int, l.filter (fun a => decide (computeAgentPriority a = p)) =
        [agentC2w, agentC2r].filter
          (fun a => decide (computeAgentPriority a = p)) :=
  ⟨by decide, by decide,
   determineOrder_no_deps [agentC2w, agentC2r] (by decide) (by decide)⟩

/-! ### C1: declared dependencies come first -/

/-- C1: whenever agent `A` declares `depends_on` `B` (single id or in a list),
`B` is in the input set, ids are distinct, and the order computation returns,
`B` is emitted strictly before `A`, regardless of the agents' raw
priorities. -/
theorem determineOrder_dependency_before (agents : List AgentMetadata)
    (A B : AgentMetadata) (l : List AgentMetadata)
    (hA : A ∈ agents) (hB : B ∈ agents)
    (hnodup : (agents.map (fun a => a.id)).Nodup)
    (hdep : declaresDepOn A B.id)
    (hrun : determineAgentExecutionOrder agents = some l) :
    ∃ i j : Fin l.length, i.val < j.val ∧
      (l.get i).id = B.id ∧ (l.get j).id = A.id := by
  have hhd := hasDeps_of_declares agents A B hA hB hdep
  unfold determineAgentExecutionOrder at hrun
  dsimp only at hrun
  rw [hhd] at hrun
  rw [if_pos rfl] at hrun
  cases hexec : execLoop agents (agents.length + 1) (sortedByPriority agents)
      ⟨[], []⟩ with
  | none => rw [hexec] at hrun; exact absurd hrun (by simp)
  | some st =>
    rw [hexec] at hrun
    dsimp only at hrun
    obtain ⟨hinv, hallag, hback⟩ := execLoop_result agents st hexec
    rw [hback] at hrun
    obtain ⟨hsync, hgood, hmem, hnd⟩ := hinv
    have hAid : A.id ∈ st.processed := hallag A hA
    have hne2 : st.order.isEmpty = false := by
      rw [List.isEmpty_eq_false]
      intro hnil
      rw [hsync, hnil] at hAid
      simp at hAid
    rw [hne2] at hrun
    rw [if_neg (by simp)] at hrun
    injection hrun with hl
    subst hl
    rw [hsync] at hAid
    obtain ⟨b, hb, hbid⟩ := List.mem_map.mp hAid
    obtain ⟨j, hj⟩ := List.mem_iff_get.mp hb
    have hdepj : B.id ∈ (depsGet agents (st.order.get j).id).getD [] := by
      rw [hj, hbid]
      exact depsGet_of_declares agents A B hA hB hnodup hdep
    obtain ⟨i, hij, hiid⟩ := hgood j B.id hdepj
    exact ⟨i, j, hij, hiid, by rw [hj]; exact hbid⟩

/-- C1 witness: the two-agent scenario where the writer depends on the
researcher; the computed order is `[researcher, writer]`. -/
theorem determineOrder_dependency_before_witness :
    (agentC1a ∈ [agentC1a, agentC1b]) ∧
    declaresDepOn agentC1a agentC1b.id ∧
    determineAgentExecutionOrder [agentC1a, agentC1b] =
      some [agentC1b, agentC1a] ∧
    ∃ i j : Fin ([agentC1b, agentC1a] : List AgentMetadata).length,
      i.val < j.val ∧
      (([agentC1b, agentC1a] : List AgentMetadata).get i).id = agentC1b.id ∧
      (([agentC1b, agentC1a] : List AgentMetadata).get j).id = agentC1a.id :=
  ⟨by decide, rfl, by decide,
   determineOrder_dependency_before [agentC1a, agentC1b] agentC1a agentC1b
     [agentC1b, agentC1a] (by decide) (by decide) (by decide) rfl (by decide)⟩

/-! ### C10: the result is a permutation of the input -/

/-- C10 (counterexample): with a duplicated agent id, the returned order
drops an input agent — `[x1, x2, y-depends-on-x]` yields only two agents, so
the output is not a permutation of the three-element input. -/
theorem determineOrder_not_permutation_dup_ids :
    determineAgentExecutionOrder [agentC10x1, agentC10x2, agentC10y] =
      some [agentC10x2, agentC10y] ∧
    ([agentC10x1, agentC10x2, agentC10y] : List AgentMetadata).length = 3 ∧
    agentC10x1 ∉ ([agentC10x2, agentC10y] : List AgentMetadata) := by
  refine ⟨by decide, rfl, by decide⟩

/-- C10 (amended): under pairwise-distinct agent ids and an acyclic
`depends_on` relation (witnessed by a rank function decreasing along
dependency edges and bounded by the agent count),
`determine_agent_execution_order` returns a permutation of the input. -/
theorem determineOrder_permutation (agents : List AgentMetadata)
    (hnodup : (agents.map (fun a => a.id)).Nodup)
    (rank : String → Nat)
    (hrank : ∀ x y, y ∈ (depsGet agents x).getD [] → rank y < rank x)
    (hbound : ∀ x ∈ agents.map (fun a => a.id), rank x ≤ agents.length) :
    ∃ l, determineAgentExecutionOrder agents = some l ∧ l.Perm agents := by
  by_cases hhd : hasDeps agents = true
  · have hsome : (execLoop agents (agents.length + 1) (sortedByPriority agents)
        ⟨[], []⟩).isSome := by
      refine execLoop_isSome agents _ rank hrank _ _ ?_
      intro a ha
      have hmem : a ∈ agents := (sortedByPriority_perm agents).mem_iff.mp ha
      have := hbound a.id (List.mem_map_of_mem _ hmem)
      omega
    cases hexec : execLoop agents (agents.length + 1) (sortedByPriority agents)
        ⟨[], []⟩ with
    | none => rw [hexec] at hsome; simp at hsome
    | some st =>
      obtain ⟨hinv, hallag, hback⟩ := execLoop_result agents st hexec
      obtain ⟨hsync, hgood, hmem, hnd⟩ := hinv
      have hl : determineAgentExecutionOrder agents =
          some (if st.order.isEmpty then agents else st.order) := by
        simp [determineAgentExecutionOrder, hhd, hexec, hback]
      by_cases hord : st.order.isEmpty = true
      · refine ⟨if st.order.isEmpty then agents else st.order, hl, ?_⟩
        rw [if_pos hord]
      · have hordF : st.order.isEmpty = false := by
          cases he : st.order.isEmpty
          · rfl
          · exact absurd he hord
        refine ⟨if st.order.isEmpty then agents else st.order, hl, ?_⟩
        rw [if_neg (by simp [hordF])]
        have hids_sub1 : st.order.map (fun a => a.id) ⊆
            agents.map (fun a => a.id) := by
          intro x hx
          obtain ⟨b, hb, rfl⟩ := List.mem_map.mp hx
          exact List.mem_map_of_mem _ (hmem b hb)
        have hids_sub2 : agents.map (fun a => a.id) ⊆
            st.order.map (fun a => a.id) := by
          intro x hx
          obtain ⟨b, hb, rfl⟩ := List.mem_map.mp hx
          have hbp : b.id ∈ st.processed := hallag b hb
          rwa [hsync] at hbp
        have hnodup_ord : (st.order.map (fun a => a.id)).Nodup := by
          rw [← hsync]
          exact hnd
        have hids_perm : (st.order.map (fun a => a.id)).Perm
            (agents.map (fun a => a.id)) :=
          (hnodup_ord.subperm hids_sub1).antisymm (hnodup.subperm hids_sub2)
        have hlift1 : (st.order.map (fun a => a.id)).filterMap
            (agentMapGet agents) = st.order :=
          filterMap_map_id _ _
            (fun a ha => agentMapGet_of_nodup agents a hnodup (hmem a ha))
        have hlift2 : (agents.map (fun a => a.id)).filterMap
            (agentMapGet agents) = agents :=
          filterMap_map_id _ _
            (fun a ha => agentMapGet_of_nodup agents a hnodup ha)
        have hfinal := hids_perm.filterMap (agentMapGet agents)
        rwa [hlift1, hlift2] at hfinal
  · have hhdF : hasDeps agents = false := by
      cases he : hasDeps agents
      · rfl
      · exact absurd he hhd
    by_cases hord : (sortedByPriority agents).isEmpty = true
    · refine ⟨agents, ?_, List.Perm.refl agents⟩
      simp [determineAgentExecutionOrder, hhdF, hord]
    · have hordF : (sortedByPriority agents).isEmpty = false := by
        cases he : (sortedByPriority agents).isEmpty
        · rfl
        · exact absurd he hord
      refine ⟨sortedByPriority agents, ?_, sortedByPriority_perm agents⟩
      simp [determineAgentExecutionOrder, hhdF, hordF]

/-- C10 witness: permutation on a concrete acyclic two-agent input. -/
theorem determineOrder_permutation_witness :
    ∃ l, determineAgentExecutionOrder [agentC10a, agentC10b] = some l ∧
      l.Perm [agentC10a, agentC10b] := by
  refine determineOrder_permutation [agentC10a, agentC10b] (by decide)
    (fun x => if x = "wa" then 1 else 0) ?_ (by decide)
  intro x y hy
  by_cases hxa : x = "wa"
  · subst hxa
    have hd : (depsGet [agentC10a, agentC10b] "wa").getD [] = ["wb"] := by
      decide
    rw [hd] at hy
    have hyb : y = "wb" := by simpa using hy
    subst hyb
    decide
  · by_cases hxb : x = "wb"
    · subst hxb
      have hd : (depsGet [agentC10a, agentC10b] "wb").getD [] = [] := by
        decide
      rw [hd] at hy
      simp at hy
    · have h1 : ¬ (agentC10a.id = x) := fun h => hxa (by simpa using h.symm)
      have h2 : ¬ (agentC10b.id = x) := fun h => hxb (by simpa using h.symm)
      have hfil : ([agentC10a, agentC10b] : List AgentMetadata).filter
          (fun a => decide (a.id = x)) = [] := by
        simp [List.filter, h1, h2]
      have hd : (depsGet [agentC10a, agentC10b] x).getD [] = [] := by
        unfold depsGet
        rw [hfil]
        rfl
      rw [hd] at hy
      simp at hy

end AMS
